import Mathlib

/-!
Verification development for the better-image-naming tool.

The tool renames an image file to a name of the shape
timestamp-underscore-content-extension, where the timestamp is the file's
modification time rendered as YYYYMMDDHHMMSS in UTC, and the content token is
a sanitized short description obtained from a vision model.

Strings are modelled as lists of characters (ASCII fragment of Python's
Unicode semantics).  The filesystem is modelled as an association list from
file names (all inside the source file's parent directory) to file data
(content plus modification time).  The external vision-model call is modelled
as a function parameter from a chat request to either a response text or an
error.
-/

/-- Strings of the embedding: lists of characters. -/
abbrev Str := List Char

/-! ## Character classes (Python regex classes, ASCII fragment)

Python's backslash-s class, restricted to ASCII: space, tab, newline,
carriage return, vertical tab, form feed. -/

def isPySpace (c : Char) : Bool :=
  c == ' ' || c == '\t' || c == '\n' || c == '\r' || c == Char.ofNat 11 || c == Char.ofNat 12

/-- Python's backslash-w class (alphanumeric or underscore), ASCII fragment. -/
def isPyWordChar (c : Char) : Bool :=
  c.isAlphanum || c == '_'

/-- Characters collapsed into underscores by sanitize: whitespace or hyphen. -/
def isSepChar (c : Char) : Bool :=
  isPySpace c || c == '-'

/-- Python str.strip with a set of characters: remove all leading and
trailing characters belonging to the set. -/
def pyStrip (cut : List Char) (s : Str) : Str :=
  ((s.dropWhile (fun c => decide (c ∈ cut))).reverse.dropWhile
    (fun c => decide (c ∈ cut))).reverse

/-- Python str.strip with no argument: strip ASCII whitespace on both ends. -/
def pyStripWs (s : Str) : Str :=
  ((s.dropWhile (fun c => isPySpace c)).reverse.dropWhile (fun c => isPySpace c)).reverse

/-- Source regex substitution removing every character that is not a word
character, whitespace, or hyphen. -/
def removeDisallowed (s : Str) : Str :=
  s.filter (fun c => isPyWordChar c || isPySpace c || c == '-')

/-- Source regex substitution replacing every maximal run of whitespace or
hyphen characters by a single underscore.  The boolean argument records
whether the previous character belonged to such a run. -/
def collapseAux : Bool → Str → Str
  | _, [] => []
  | prev, c :: rest =>
    if isSepChar c then
      if prev then collapseAux true rest else '_' :: collapseAux true rest
    else
      c :: collapseAux false rest

def collapseSeparators (s : Str) : Str :=
  collapseAux false s

/-- Quote characters stripped by sanitize: double quote, single quote,
backtick. -/
def quoteChars : List Char :=
  ['"', Char.ofNat 39, Char.ofNat 96]

/-- Embedding of sanitize_content from the source: strip surrounding quotes,
lowercase, drop disallowed characters, collapse whitespace and hyphen runs to
underscores, strip surrounding underscores, keep at most the first three
nonempty underscore-separated words, and fall back to the literal "image"
when nothing remains.  Taking the first three elements of a list equals the
source's conditional truncation because take is the identity on shorter
lists. -/
def sanitize_content (content : Str) : Str :=
  let s1 := pyStrip quoteChars content
  let s2 := s1.map Char.toLower
  let s3 := removeDisallowed s2
  let s4 := collapseSeparators s3
  let s5 := pyStrip ['_'] s4
  let words := ((s5.splitOn '_').filter (fun w => !w.isEmpty)).take 3
  let joined := List.intercalate ['_'] words
  if joined.isEmpty then "image".toList else joined

/-- Number of nonempty underscore-separated words of a string. -/
def wordCount (s : Str) : Nat :=
  ((s.splitOn '_').filter (fun w => !w.isEmpty)).length

/-- Word list computed by sanitize_content before joining: a view of the
intermediate value of the pipeline, definitionally equal to the corresponding
step of sanitize_content. -/
def sanitizeWords (s : Str) : List Str :=
  (((pyStrip ['_'] (collapseSeparators (removeDisallowed
    ((pyStrip quoteChars s).map Char.toLower)))).splitOn '_').filter
      (fun w => !w.isEmpty)).take 3

/-- Content Token invariant stated by the specification: nonempty, every
character a lowercase letter, a digit, or an underscore, at most three
underscore-separated words, and no leading or trailing underscore. -/
def IsValidToken (s : Str) : Prop :=
  s ≠ [] ∧
  (∀ c ∈ s, (c.isLower || c.isDigit || c == '_') = true) ∧
  wordCount s ≤ 3 ∧
  s.head? ≠ some '_' ∧
  s.getLast? ≠ some '_'

/-! ## Decimal rendering of natural numbers (Python str of an int) -/

/-- Decimal digit character for a value below ten. -/
def decDigit : Nat → Char
  | 0 => '0' | 1 => '1' | 2 => '2' | 3 => '3' | 4 => '4'
  | 5 => '5' | 6 => '6' | 7 => '7' | 8 => '8' | 9 => '9'
  | _ => '?'

/-- Digits of a number, most significant first, prepended to an accumulator.
The first argument is fuel; any fuel of at least the number itself yields the
full digit string. -/
def natReprAux : Nat → Nat → Str → Str
  | _, 0, acc => acc
  | 0, _ + 1, acc => acc
  | fuel + 1, n + 1, acc =>
    natReprAux fuel ((n + 1) / 10) (decDigit ((n + 1) % 10) :: acc)

/-- Decimal rendering of a natural number, as Python renders an int. -/
def natRepr (n : Nat) : Str :=
  if n = 0 then ['0'] else natReprAux n n []

/-- Value of a digit string read in decimal, starting from an accumulator;
evaluation map used to establish that decimal rendering is injective. -/
def decValFrom (a : Nat) (s : Str) : Nat :=
  s.foldl (fun b c => 10 * b + (c.toNat - 48)) a

/-! ## Timestamp formatting (embedding of get_utc_timestamp)

The source obtains the modification time as seconds since the Unix epoch,
converts it to a UTC datetime and formats it as YYYYMMDDHHMMSS.  The
conversion from days since the epoch to a Gregorian calendar date is the
standard civil-from-days computation, which is what Python's
datetime.fromtimestamp performs for the UTC timezone.  The modification time
is modelled as a whole number of seconds since the epoch; the source keeps
sub-second precision internally but the output format drops it. -/

def civilFromDays (days : Nat) : Nat × Nat × Nat :=
  let z := days + 719468
  let era := z / 146097
  let doe := z % 146097
  let yoe := (doe - doe / 1460 + doe / 36524 - doe / 146096) / 365
  let y := yoe + era * 400
  let doy := doe - (365 * yoe + yoe / 4 - yoe / 100)
  let mp := (5 * doy + 2) / 153
  let d := doy - (153 * mp + 2) / 5 + 1
  let m := if mp < 10 then mp + 3 else mp - 9
  (if m ≤ 2 then y + 1 else y, m, d)

/-- Zero-padded decimal rendering to a given width, as the strftime
two-digit and four-digit fields render year, month, day, hour, minute and
second.  Numbers with more digits than the width keep all their digits. -/
def padNum (w n : Nat) : Str :=
  List.replicate (w - (natRepr n).length) '0' ++ natRepr n

/-- Embedding of get_utc_timestamp: format the modification time, taken as
seconds since the Unix epoch, as YYYYMMDDHHMMSS in UTC. -/
def get_utc_timestamp (mtime : Nat) : Str :=
  let days := mtime / 86400
  let secs := mtime % 86400
  let ymd := civilFromDays days
  padNum 4 ymd.1 ++ padNum 2 ymd.2.1 ++ padNum 2 ymd.2.2 ++
    padNum 2 (secs / 3600) ++ padNum 2 (secs % 3600 / 60) ++ padNum 2 (secs % 60)

/-! ## Image analysis (embedding of analyze_image)

The external inference collaborator is a parameter: it receives the model
name, the instruction prompt and the image reference, and returns either the
response text or an error. -/

structure ChatRequest where
  model : Str
  prompt : Str
  image : Str
deriving DecidableEq

/-- Fixed instruction prompt sent by the source to the vision model. -/
def analyzePrompt : Str :=
  ("Describe what this image is about in 1-3 words. " ++
   "Focus on the main subject, action, or theme. " ++
   "Use simple English words separated by spaces. " ++
   "Examples: \x27sunset beach\x27, \x27cat sleeping\x27, \x27mountain landscape\x27. " ++
   "Only respond with the description, nothing else.").toList

/-- Embedding of analyze_image: send the image and the fixed prompt to the
named model through the collaborator; on success, strip the response and
sanitize it before returning; on failure, wrap the error with context. -/
def analyze_image (chatFn : ChatRequest → Except Str Str) (image_path model : Str) :
    Except Str Str :=
  match chatFn ⟨model, analyzePrompt, image_path⟩ with
  | Except.ok resp => Except.ok (sanitize_content (pyStripWs resp))
  | Except.error e => Except.error ("Failed to analyze image with Ollama: ".toList ++ e)

/-! ## Filesystem model

All paths involved live in the source file's parent directory, so the model
identifies a path with its file name.  A directory is an association list
from names to file data; file data carries the content and the modification
time (the metadata that the copy preserves). -/

structure FileData (α : Type) where
  content : α
  mtime : Nat
deriving DecidableEq

def fsFind (fs : List (Str × FileData α)) (p : Str) : Option (FileData α) :=
  (fs.find? (fun e => decide (e.1 = p))).map (fun e => e.2)

def fsExists (fs : List (Str × FileData α)) (p : Str) : Bool :=
  (fsFind fs p).isSome

def fsRemove (fs : List (Str × FileData α)) (p : Str) : List (Str × FileData α) :=
  fs.filter (fun e => decide (e.1 ≠ p))

def fsSet (fs : List (Str × FileData α)) (p : Str) (d : FileData α) :
    List (Str × FileData α) :=
  (p, d) :: fsRemove fs p

/-- Atomic rename: move the entry at the source name to the target name,
overwriting any entry at the target, as the POSIX rename that Path.rename
performs.  Renaming a path to itself succeeds and leaves the entry in
place. -/
def fsRename (fs : List (Str × FileData α)) (src dst : Str) :
    Option (List (Str × FileData α)) :=
  match fsFind fs src with
  | none => none
  | some d => some (fsSet (fsRemove fs src) dst d)

/-- Content-preserving copy with metadata, as shutil.copy2: fails when source
and destination are the same file, otherwise writes the source's content and
modification time at the destination. -/
def fsCopy2 (fs : List (Str × FileData α)) (src dst : Str) :
    Option (List (Str × FileData α)) :=
  if src = dst then none
  else
    match fsFind fs src with
    | none => none
    | some d => some (fsSet fs dst d)

/-- Embedding of pathlib's suffix property: the part of the name from the
last dot on, empty when the name has no dot, when the dot is the first
character, or when the dot is the last character. -/
def pathSuffix (name : Str) : Str :=
  let r := name.reverse
  let k := r.findIdx (fun c => c == '.')
  if k = r.length then []
  else if k = 0 then []
  else if k = r.length - 1 then []
  else (r.take (k + 1)).reverse

/-- Extension used for composing the new name: the source name's own suffix,
or the literal ".jpg" when the name has no suffix. -/
def extUsed (name : Str) : Str :=
  if (pathSuffix name).isEmpty then ".jpg".toList else pathSuffix name

/-- Candidate file name composed by the source: timestamp, underscore,
content, extension. -/
def candidateName (ts content ext : Str) : Str :=
  ts ++ '_' :: (content ++ ext)

/-- File name with a collision counter: timestamp, underscore, content,
underscore, counter, extension. -/
def counterName (ts content ext : Str) (k : Nat) : Str :=
  ts ++ '_' :: (content ++ '_' :: (natRepr k ++ ext))

/-- Collision probing loop of the source: while the current path exists,
compose the name with the next counter value and retry.  The loop in the
source terminates because the directory is finite; the fuel given by the
caller is large enough that it never runs out before a free name is found. -/
def probeLoop (fs : List (Str × FileData α)) (ts content ext : Str) :
    Nat → Str → Nat → Str
  | _, cur, 0 => cur
  | counter, cur, fuel + 1 =>
    if fsExists fs cur then
      probeLoop fs ts content ext (counter + 1) (counterName ts content ext counter) fuel
    else cur

/-- Collision resolution of the source: when an entry already exists at the
candidate path and the candidate is not the source path itself, probe
counters starting at one until a free path is found. -/
def resolveCollision (fs : List (Str × FileData α)) (srcName ts content ext : Str) :
    Str :=
  let new_path := candidateName ts content ext
  if fsExists fs new_path = true ∧ new_path ≠ srcName then
    probeLoop fs ts content ext 1 new_path (fs.length + 2)
  else new_path

/-- Outcome of one run of the rename command: resulting directory, process
exit code, composed final name when one was reached, and whether the
no-extension warning was emitted. -/
structure RenameOutcome (α : Type) where
  fs : List (Str × FileData α)
  exitCode : Nat
  newName : Option Str
  warnedNoExt : Bool
deriving DecidableEq

/-- Embedding of the rename command: validate that the source is a file,
extract the extension (warning and substituting ".jpg" when there is none),
compute the timestamp from the modification time, analyze the image, compose
the candidate name, resolve collisions, and either rename in place or copy
with metadata.  Every failure exits with code one; the model keeps the
directory unchanged on failure, matching the source where the rename or copy
raises before modifying anything. -/
def runRename (fs : List (Str × FileData α)) (srcName : Str)
    (chatFn : ChatRequest → Except Str Str) (model : Str) (in_place : Bool) :
    RenameOutcome α :=
  match fsFind fs srcName with
  | none => ⟨fs, 1, none, false⟩
  | some fd =>
    let warned := (pathSuffix srcName).isEmpty
    let file_ext := extUsed srcName
    let timestamp := get_utc_timestamp fd.mtime
    match analyze_image chatFn srcName model with
    | Except.error _ => ⟨fs, 1, none, warned⟩
    | Except.ok content =>
      let resolved := resolveCollision fs srcName timestamp content file_ext
      if in_place then
        match fsRename fs srcName resolved with
        | none => ⟨fs, 1, some resolved, warned⟩
        | some fs2 => ⟨fs2, 0, some resolved, warned⟩
      else
        match fsCopy2 fs srcName resolved with
        | none => ⟨fs, 1, some resolved, warned⟩
        | some fs2 => ⟨fs2, 0, some resolved, warned⟩

/-! ## Character lemmas -/

theorem char_isUpper_iff (c : Char) : c.isUpper = true ↔ 65 ≤ c.toNat ∧ c.toNat ≤ 90 := by
  simp [Char.isUpper, Char.toNat, UInt32.le_def, BitVec.le_def, UInt32.toNat]

theorem char_isLower_iff (c : Char) : c.isLower = true ↔ 97 ≤ c.toNat ∧ c.toNat ≤ 122 := by
  simp [Char.isLower, Char.toNat, UInt32.le_def, BitVec.le_def, UInt32.toNat]

theorem char_ofNatAux_toNat (n : Nat) (h : n.isValidChar) :
    (Char.ofNatAux n h).toNat = n := rfl

theorem toLower_toNat (c : Char) :
    (Char.toLower c).toNat =
      if 65 ≤ c.toNat ∧ c.toNat ≤ 90 then c.toNat + 32 else c.toNat := by
  unfold Char.toLower
  by_cases h : 65 ≤ c.toNat ∧ c.toNat ≤ 90
  · have hv : (c.toNat + 32).isValidChar := Or.inl (by omega)
    simp only [ge_iff_le, h, and_true, if_pos, Char.ofNat, dif_pos hv]
    exact char_ofNatAux_toNat _ hv
  · rw [if_neg h]
    rw [if_neg (by tauto)]

theorem toLower_not_upper (c : Char) : (Char.toLower c).isUpper = false := by
  rw [← Bool.not_eq_true]
  intro hu
  rw [char_isUpper_iff, toLower_toNat] at hu
  by_cases h : 65 ≤ c.toNat ∧ c.toNat ≤ 90
  · rw [if_pos h] at hu; omega
  · rw [if_neg h] at hu; omega

/-! ## Lemmas about the sanitizer pipeline -/

theorem mem_pyStrip {cut : List Char} {s : Str} {c : Char} (h : c ∈ pyStrip cut s) :
    c ∈ s := by
  unfold pyStrip at h
  rw [List.mem_reverse] at h
  have h1 := (List.dropWhile_sublist (l := (s.dropWhile fun c => decide (c ∈ cut)).reverse)
    (fun c => decide (c ∈ cut))).subset h
  rw [List.mem_reverse] at h1
  exact (List.dropWhile_sublist _).subset h1

theorem mem_collapseAux {prev : Bool} {s : Str} {c : Char}
    (h : c ∈ collapseAux prev s) :
    c = '_' ∨ (c ∈ s ∧ isSepChar c = false) := by
  induction s generalizing prev with
  | nil => simp [collapseAux] at h
  | cons a rest ih =>
    by_cases ha : isSepChar a = true
    · rw [show collapseAux prev (a :: rest) =
          (if prev then collapseAux true rest
           else '_' :: collapseAux true rest) by simp [collapseAux, ha]] at h
      by_cases hp : prev
      · rcases ih (by simpa [hp] using h) with h1 | ⟨h1, h2⟩
        · exact Or.inl h1
        · exact Or.inr ⟨List.mem_cons_of_mem _ h1, h2⟩
      · rcases (by simpa [hp] using h : c = '_' ∨ c ∈ collapseAux true rest) with h1 | h1
        · exact Or.inl h1
        · rcases ih h1 with h2 | ⟨h2, h3⟩
          · exact Or.inl h2
          · exact Or.inr ⟨List.mem_cons_of_mem _ h2, h3⟩
    · rw [show collapseAux prev (a :: rest) = a :: collapseAux false rest by
          simp [collapseAux, ha]] at h
      rcases List.mem_cons.mp h with h1 | h1
      · subst h1
        exact Or.inr ⟨List.mem_cons_self _ _, by simpa using ha⟩
      · rcases ih h1 with h2 | ⟨h2, h3⟩
        · exact Or.inl h2
        · exact Or.inr ⟨List.mem_cons_of_mem _ h2, h3⟩

theorem mem_splitOn_subset {s : Str} : ∀ {w : Str}, w ∈ s.splitOn '_' →
    w ⊆ s ∧ '_' ∉ w := by
  induction s with
  | nil =>
    intro w h
    simp only [List.splitOn_nil, List.mem_singleton] at h
    subst h
    exact ⟨List.nil_subset _, by simp⟩
  | cons a rest ih =>
    intro w h
    rw [List.splitOn, List.splitOnP_cons] at h
    by_cases ha : a = '_'
    · rw [if_pos (by simp [ha])] at h
      rcases List.mem_cons.mp h with h1 | h1
      · subst h1
        exact ⟨List.nil_subset _, by simp⟩
      · have := ih h1
        exact ⟨fun c hc => List.mem_cons_of_mem _ (this.1 hc), this.2⟩
    · rw [if_neg (by simp [ha])] at h
      rcases hne : List.splitOnP (fun x => x == '_') rest with _ | ⟨hd, tl⟩
      · exact absurd hne (List.splitOnP_ne_nil _ rest)
      · rw [hne, List.modifyHead] at h
        have hhd : hd ∈ List.splitOn '_' rest := by
          rw [List.splitOn, hne]; exact List.mem_cons_self _ _
        rcases List.mem_cons.mp h with h1 | h1
        · subst h1
          refine ⟨?_, ?_⟩
          · intro c hc
            rcases List.mem_cons.mp hc with h2 | h2
            · subst h2; exact List.mem_cons_self _ _
            · exact List.mem_cons_of_mem _ ((ih hhd).1 h2)
          · intro hc
            rcases List.mem_cons.mp hc with h2 | h2
            · exact ha h2.symm
            · exact (ih hhd).2 h2
        · have hw : w ∈ List.splitOn '_' rest := by
            rw [List.splitOn, hne]; exact List.mem_cons_of_mem _ h1
          have := ih hw
          exact ⟨fun c hc => List.mem_cons_of_mem _ (this.1 hc), this.2⟩

theorem intercalate_nil_words : List.intercalate ['_'] ([] : List Str) = [] := by
  simp [List.intercalate]

theorem intercalate_single (w : Str) : List.intercalate ['_'] [w] = w := by
  simp [List.intercalate]

theorem intercalate_cons₂ (a b : Str) (l : List Str) :
    List.intercalate ['_'] (a :: b :: l) = a ++ '_' :: List.intercalate ['_'] (b :: l) := by
  simp [List.intercalate]

theorem mem_intercalate_underscore {ws : List Str} {c : Char}
    (h : c ∈ List.intercalate ['_'] ws) :
    c = '_' ∨ ∃ w ∈ ws, c ∈ w := by
  induction ws with
  | nil => rw [intercalate_nil_words] at h; cases h
  | cons a l ih =>
    cases l with
    | nil =>
      rw [intercalate_single] at h
      exact Or.inr ⟨a, List.mem_singleton_self _, h⟩
    | cons b l' =>
      rw [intercalate_cons₂] at h
      rcases List.mem_append.mp h with h1 | h1
      · exact Or.inr ⟨a, List.mem_cons_self _ _, h1⟩
      · rcases List.mem_cons.mp h1 with h2 | h2
        · exact Or.inl h2
        · rcases ih h2 with h3 | ⟨w, hw, hc⟩
          · exact Or.inl h3
          · exact Or.inr ⟨w, List.mem_cons_of_mem _ hw, hc⟩

theorem head?_intercalate {ws : List Str} (hne : ws ≠ [])
    (hw : ∀ w ∈ ws, w ≠ []) :
    ∃ w ∈ ws, (List.intercalate ['_'] ws).head? = w.head? := by
  cases ws with
  | nil => exact absurd rfl hne
  | cons a l =>
    refine ⟨a, List.mem_cons_self _ _, ?_⟩
    cases l with
    | nil => rw [intercalate_single]
    | cons b l' =>
      rw [intercalate_cons₂, List.head?_append]
      have : a.head?.isSome := by
        cases a with
        | nil => exact absurd rfl (hw _ (List.mem_cons_self _ _))
        | cons x xs => rfl
      cases ha : a.head? with
      | none => rw [ha] at this; cases this
      | some x => rfl

theorem getLast?_intercalate {ws : List Str} (hne : ws ≠ [])
    (hw : ∀ w ∈ ws, w ≠ []) :
    ∃ w ∈ ws, (List.intercalate ['_'] ws).getLast? = w.getLast? := by
  induction ws with
  | nil => exact absurd rfl hne
  | cons a l ih =>
    cases l with
    | nil =>
      exact ⟨a, List.mem_cons_self _ _, by rw [intercalate_single]⟩
    | cons b l' =>
      rcases ih (by simp) (fun w hmem => hw _ (List.mem_cons_of_mem _ hmem)) with
        ⟨w, hwmem, hlast⟩
      refine ⟨w, List.mem_cons_of_mem _ hwmem, ?_⟩
      rw [intercalate_cons₂, List.getLast?_append]
      have hbl : List.intercalate ['_'] (b :: l') ≠ [] := by
        intro hcon
        have : (b : Str) ≠ [] := hw _ (List.mem_cons_of_mem _ (List.mem_cons_self _ _))
        cases l' with
        | nil => rw [intercalate_single] at hcon; exact this hcon
        | cons c l'' =>
          rw [intercalate_cons₂] at hcon
          exact absurd hcon (by simp)
      have h2 : ('_' :: List.intercalate ['_'] (b :: l')).getLast? =
          (List.intercalate ['_'] (b :: l')).getLast? := by
        cases hx : List.intercalate ['_'] (b :: l') with
        | nil => exact absurd hx hbl
        | cons y t => rfl
      rw [h2, hlast]
      have hwne : w ≠ [] := hw _ (List.mem_cons_of_mem _ hwmem)
      cases hwl : w.getLast? with
      | none =>
        rw [List.getLast?_eq_none_iff] at hwl
        exact absurd hwl hwne
      | some x => rfl

theorem sanitize_eq (s : Str) :
    sanitize_content s =
      if (List.intercalate ['_'] (sanitizeWords s)).isEmpty then "image".toList
      else List.intercalate ['_'] (sanitizeWords s) := rfl

theorem sanitizeWords_ne_nil {s : Str} {w : Str} (hw : w ∈ sanitizeWords s) :
    w ≠ [] := by
  have h1 := List.mem_filter.mp (List.take_subset _ _ hw)
  simpa [List.isEmpty_iff] using h1.2

theorem sanitizeWords_no_underscore {s : Str} {w : Str} (hw : w ∈ sanitizeWords s) :
    '_' ∉ w := by
  have h1 := (List.mem_filter.mp (List.take_subset _ _ hw)).1
  exact (mem_splitOn_subset h1).2

theorem sanitizeWords_chars {s : Str} {w : Str} (hw : w ∈ sanitizeWords s)
    {c : Char} (hc : c ∈ w) : (c.isLower || c.isDigit || c == '_') = true := by
  have h1 := (List.mem_filter.mp (List.take_subset _ _ hw)).1
  have h2 := (mem_splitOn_subset h1).1 hc
  have h3 := mem_pyStrip h2
  rcases mem_collapseAux h3 with h4 | ⟨h4, h5⟩
  · subst h4; simp
  · have h6 := List.mem_filter.mp h4
    simp only [isSepChar, Bool.or_eq_false_iff] at h5
    have h7 : isPyWordChar c = true := by
      rcases Bool.or_eq_true_iff.mp h6.2 with h8 | h8
      · rcases Bool.or_eq_true_iff.mp h8 with h9 | h9
        · exact h9
        · rw [h9] at h5; cases h5.1
      · rw [h8] at h5; cases h5.2
    rcases List.mem_map.mp h6.1 with ⟨c', _, hc'⟩
    have hup : c.isUpper = false := hc' ▸ toLower_not_upper c'
    simp only [isPyWordChar, Bool.or_eq_true] at h7
    rcases h7 with h7 | h7
    · simp only [Char.isAlphanum, Char.isAlpha, Bool.or_eq_true] at h7
      rcases h7 with (h7 | h7) | h7
      · rw [h7] at hup; cases hup
      · simp [h7]
      · simp [h7]
    · simp [h7]

theorem sanitize_valid (s : Str) : IsValidToken (sanitize_content s) := by
  by_cases hj : (List.intercalate ['_'] (sanitizeWords s)).isEmpty = true
  · have hsc : sanitize_content s = "image".toList := by rw [sanitize_eq, if_pos hj]
    rw [hsc]
    exact ⟨by decide, by decide, by decide, by decide, by decide⟩
  · have hsc : sanitize_content s = List.intercalate ['_'] (sanitizeWords s) := by
      rw [sanitize_eq, if_neg hj]
    have hjoinne : List.intercalate ['_'] (sanitizeWords s) ≠ [] := by
      intro h0; rw [h0] at hj; exact hj rfl
    have hwne : sanitizeWords s ≠ [] := by
      intro h0; rw [h0, intercalate_nil_words] at hjoinne; exact hjoinne rfl
    refine ⟨?_, ?_, ?_, ?_, ?_⟩
    · rw [hsc]; exact hjoinne
    · rw [hsc]
      intro c hcmem
      rcases mem_intercalate_underscore hcmem with h | ⟨w, hw, hc⟩
      · subst h; simp
      · exact sanitizeWords_chars hw hc
    · rw [hsc]
      unfold wordCount
      rw [List.splitOn_intercalate (sanitizeWords s) '_'
        (fun w hw => sanitizeWords_no_underscore hw) hwne]
      rw [List.filter_eq_self.mpr (fun w hw => by
        simpa [List.isEmpty_iff] using sanitizeWords_ne_nil hw)]
      unfold sanitizeWords
      rw [List.length_take]
      exact min_le_left _ _
    · rw [hsc]
      rcases head?_intercalate hwne (fun w hw => sanitizeWords_ne_nil hw) with
        ⟨w, hw, hh⟩
      rw [hh]
      intro hcon
      exact sanitizeWords_no_underscore hw (List.mem_of_mem_head? hcon)
    · rw [hsc]
      rcases getLast?_intercalate hwne (fun w hw => sanitizeWords_ne_nil hw) with
        ⟨w, hw, hh⟩
      rw [hh]
      intro hcon
      exact sanitizeWords_no_underscore hw (List.mem_of_mem_getLast? hcon)

/-! ## Claim C1 and C6 theorems -/

/-- C1: for every input string, including the empty string, sanitize returns
a nonempty lowercase string of alphanumeric characters and underscores, with
at most three underscore-separated words and no leading or trailing
underscore; the function is total because it is a Lean function defined for
every input string. -/
theorem claim_C1_sanitize_invariants (s : Str) : IsValidToken (sanitize_content s) :=
  sanitize_valid s

/-- C6: sanitize agrees with the worked examples of the specification: the
empty string and the all-blank string map to the fallback "image", five words
are truncated to the first three, and surrounding double quotes are
stripped. -/
theorem claim_C6_sanitize_examples :
    sanitize_content "".toList = "image".toList ∧
    sanitize_content "  ".toList = "image".toList ∧
    sanitize_content "A B C D E".toList = "a_b_c".toList ∧
    sanitize_content "\"Cat Sleeping\"".toList = "cat_sleeping".toList := by
  refine ⟨by decide, by decide, by decide, by decide⟩

/-! ## Decimal rendering lemmas -/

theorem natReprAux_fuel {n : Nat} : ∀ {fuel : Nat} (acc : Str), n ≤ fuel →
    natReprAux fuel n acc = natReprAux n n [] ++ acc := by
  induction n using Nat.strong_induction_on with
  | _ n ih =>
    intro fuel acc hfuel
    match n, fuel with
    | 0, fuel => cases fuel <;> rfl
    | m + 1, fuel + 1 =>
      rw [natReprAux]
      have hdiv : (m + 1) / 10 < m + 1 := Nat.div_lt_self (Nat.succ_pos m) (by omega)
      have hdivfuel : (m + 1) / 10 ≤ fuel := by omega
      rw [ih _ hdiv _ hdivfuel]
      have hstep : natReprAux (m + 1) (m + 1) [] =
          natReprAux ((m + 1) / 10) ((m + 1) / 10) [] ++ [decDigit ((m + 1) % 10)] := by
        rw [natReprAux]
        exact ih _ hdiv _ (by omega)
      rw [hstep, List.append_assoc]
      rfl

theorem digits_decomp {n : Nat} (h : 1 ≤ n) :
    natReprAux n n [] = natReprAux (n / 10) (n / 10) [] ++ [decDigit (n % 10)] := by
  match n, h with
  | m + 1, _ =>
    rw [natReprAux]
    exact natReprAux_fuel _ (by
      have : (m + 1) / 10 < m + 1 := Nat.div_lt_self (Nat.succ_pos m) (by omega)
      omega)

theorem decDigit_toNat {d : Nat} (h : d < 10) : (decDigit d).toNat - 48 = d := by
  interval_cases d <;> decide

theorem decDigit_isDigit {d : Nat} (h : d < 10) : (decDigit d).isDigit = true := by
  interval_cases d <;> decide

theorem decValFrom_append (a : Nat) (s t : Str) :
    decValFrom a (s ++ t) = decValFrom (decValFrom a s) t := by
  unfold decValFrom
  rw [List.foldl_append]

theorem decValFrom_digits (n : Nat) : ∀ a : Nat,
    decValFrom a (natReprAux n n []) = a * 10 ^ (natReprAux n n []).length + n := by
  induction n using Nat.strong_induction_on with
  | _ n ih =>
    intro a
    rcases Nat.eq_zero_or_pos n with hz | hpos
    · subst hz
      show decValFrom a [] = a * 10 ^ (List.length ([] : Str)) + 0
      simp [decValFrom]
    · have hdiv : n / 10 < n := Nat.div_lt_self hpos (by omega)
      rw [digits_decomp hpos, decValFrom_append, ih _ hdiv]
      show 10 * (a * 10 ^ _ + n / 10) + ((decDigit (n % 10)).toNat - 48) = _
      rw [decDigit_toNat (Nat.mod_lt n (by omega))]
      rw [List.length_append, List.length_singleton]
      ring_nf
      omega

theorem decValFrom_natRepr (n : Nat) : decValFrom 0 (natRepr n) = n := by
  unfold natRepr
  rcases Nat.eq_zero_or_pos n with hz | hpos
  · subst hz; decide
  · rw [if_neg (by omega)]
    have := decValFrom_digits n 0
    simpa using this

theorem natRepr_injective : Function.Injective natRepr := by
  intro a b hab
  have ha := decValFrom_natRepr a
  have hb := decValFrom_natRepr b
  rw [hab] at ha
  omega

theorem natRepr_isDigit (n : Nat) : ∀ c ∈ natRepr n, c.isDigit = true := by
  unfold natRepr
  rcases Nat.eq_zero_or_pos n with hz | hpos
  · subst hz; intro c hc; simp at hc; subst hc; decide
  · rw [if_neg (by omega)]
    induction n using Nat.strong_induction_on with
    | _ n ih =>
      intro c hc
      rcases Nat.eq_zero_or_pos n with hz' | hpos'
      · subst hz'; cases hc
      · rw [digits_decomp hpos'] at hc
        rcases List.mem_append.mp hc with h1 | h1
        · rcases Nat.eq_zero_or_pos (n / 10) with hz2 | hpos2
          · rw [hz2] at h1; cases h1
          · exact ih (n / 10) (Nat.div_lt_self hpos' (by omega)) hpos2 _ h1
        · rw [List.mem_singleton] at h1
          subst h1
          exact decDigit_isDigit (Nat.mod_lt n (by omega))

theorem natReprAux_length_le {k : Nat} : ∀ {n : Nat}, n < 10 ^ k →
    (natReprAux n n []).length ≤ k := by
  induction k with
  | zero =>
    intro n hn
    have : n = 0 := by simpa using hn
    subst this
    simp [natReprAux]
  | succ k ih =>
    intro n hn
    rcases Nat.eq_zero_or_pos n with hz | hpos
    · subst hz; simp [natReprAux]
    · rw [digits_decomp hpos, List.length_append, List.length_singleton]
      have : n / 10 < 10 ^ k := by
        rw [Nat.div_lt_iff_lt_mul (by omega)]
        calc n < 10 ^ (k + 1) := hn
        _ = 10 ^ k * 10 := by ring
      have := ih this
      omega

theorem natRepr_length_le {k n : Nat} (hk : 1 ≤ k) (hn : n < 10 ^ k) :
    (natRepr n).length ≤ k := by
  unfold natRepr
  rcases Nat.eq_zero_or_pos n with hz | hpos
  · subst hz; simpa using hk
  · rw [if_neg (by omega)]
    exact natReprAux_length_le hn

theorem padNum_length {w n : Nat} (hk : 1 ≤ w) (hn : n < 10 ^ w) :
    (padNum w n).length = w := by
  unfold padNum
  rw [List.length_append, List.length_replicate]
  have := natRepr_length_le hk hn
  omega

theorem padNum_isDigit (w n : Nat) : ∀ c ∈ padNum w n, c.isDigit = true := by
  intro c hc
  unfold padNum at hc
  rcases List.mem_append.mp hc with h1 | h1
  · rw [List.eq_of_mem_replicate h1]; decide
  · exact natRepr_isDigit n c h1

/-! ## Calendar arithmetic bounds

Bounds on the civil-from-days computation needed to show that the formatted
timestamp always has fourteen digits for any modification time up to the end
of year 9999 (beyond which the source's datetime conversion raises). -/

theorem civil_doy_le (doe : Nat) (h : doe ≤ 146096) :
    doe - (365 * ((doe - doe / 1460 + doe / 36524 - doe / 146096) / 365)
      + ((doe - doe / 1460 + doe / 36524 - doe / 146096) / 365) / 4
      - ((doe - doe / 1460 + doe / 36524 - doe / 146096) / 365) / 100) ≤ 365 := by
  by_cases h146 : doe = 146096
  · subst h146
    decide
  · set a := doe / 1460 with ha
    set b := doe / 36524 with hb
    set c := doe / 146096 with hc
    set N := doe - a + b - c with hN
    set yoe := N / 365 with hyoe
    set q4 := yoe / 4 with hq4
    set q100 := yoe / 100 with hq100
    have key1 : 1459 * a + b ≤ N + c := by omega
    have key2 : N ≤ 1460 * q4 + 1459 := by omega
    have lemA : a ≤ q4 + 1 := by
      by_contra hcon
      push_neg at hcon
      have hN1 : N ≤ 146096 := by omega
      omega
    have lemB : q100 ≤ b := by
      by_contra hcon
      push_neg at hcon
      omega
    have hc0 : c = 0 := by omega
    omega

theorem civilFromDays_bounds (days : Nat) (h : days ≤ 2932896) :
    (civilFromDays days).1 ≤ 9999 ∧ (civilFromDays days).2.1 ≤ 12 ∧
      1 ≤ (civilFromDays days).2.1 ∧ (civilFromDays days).2.2 ≤ 31 ∧
      1 ≤ (civilFromDays days).2.2 := by
  simp only [civilFromDays]
  set z := days + 719468 with hz
  set era := z / 146097 with hera
  set doe := z % 146097 with hdoe
  set yoe := (doe - doe / 1460 + doe / 36524 - doe / 146096) / 365 with hyoe
  set doy := doe - (365 * yoe + yoe / 4 - yoe / 100) with hdoy
  set mp := (5 * doy + 2) / 153 with hmp
  set d := doy - (153 * mp + 2) / 5 + 1 with hd
  have hdoele : doe ≤ 146096 := by omega
  have hyoele : yoe ≤ 399 := by omega
  have hdoyle : doy ≤ 365 := by
    have := civil_doy_le doe hdoele
    rw [← hyoe] at this
    rw [hdoy]
    exact this
  have hmple : mp ≤ 11 := by omega
  have hdle : d ≤ 31 ∧ 1 ≤ d := by omega
  have herale : era ≤ 24 := by omega
  refine ⟨?_, ?_, ?_, ?_, ?_⟩
  · split_ifs with h1 h2
    · omega
    · omega
    · by_cases h24 : era = 24
      · by_cases h399 : yoe = 399
        · have hdoe24 : doe ≤ 146036 := by omega
          have hdoy305 : doy ≤ 305 := by omega
          omega
        · omega
      · omega
    · omega
  · split_ifs <;> omega
  · split_ifs <;> omega
  · show doy - (153 * mp + 2) / 5 + 1 ≤ 31
    omega
  · show 1 ≤ doy - (153 * mp + 2) / 5 + 1
    omega

theorem get_utc_timestamp_format (t : Nat) (h : t < 253402300800) :
    (get_utc_timestamp t).length = 14 ∧ ∀ c ∈ get_utc_timestamp t, c.isDigit = true := by
  have hdays : t / 86400 ≤ 2932896 := by omega
  obtain ⟨hy, hm12, hm1, hd31, hd1⟩ := civilFromDays_bounds _ hdays
  have hp4 : (10 : Nat) ^ 4 = 10000 := by norm_num
  have hp2 : (10 : Nat) ^ 2 = 100 := by norm_num
  have hhh : t % 86400 / 3600 ≤ 23 := by omega
  have hmm : t % 86400 % 3600 / 60 ≤ 59 := by omega
  have hss : t % 86400 % 60 ≤ 59 := by omega
  simp only [get_utc_timestamp]
  constructor
  · rw [List.length_append, List.length_append, List.length_append,
      List.length_append, List.length_append]
    rw [padNum_length (by norm_num) (by omega : (civilFromDays (t / 86400)).1 < 10 ^ 4),
      padNum_length (by norm_num) (by omega : (civilFromDays (t / 86400)).2.1 < 10 ^ 2),
      padNum_length (by norm_num) (by omega : (civilFromDays (t / 86400)).2.2 < 10 ^ 2),
      padNum_length (by norm_num) (by omega : t % 86400 / 3600 < 10 ^ 2),
      padNum_length (by norm_num) (by omega : t % 86400 % 3600 / 60 < 10 ^ 2),
      padNum_length (by norm_num) (by omega : t % 86400 % 60 < 10 ^ 2)]
  · intro c hc
    rcases List.mem_append.mp hc with h1 | h1
    rotate_left
    · exact padNum_isDigit _ _ _ h1
    rcases List.mem_append.mp h1 with h2 | h2
    rotate_left
    · exact padNum_isDigit _ _ _ h2
    rcases List.mem_append.mp h2 with h3 | h3
    rotate_left
    · exact padNum_isDigit _ _ _ h3
    rcases List.mem_append.mp h3 with h4 | h4
    rotate_left
    · exact padNum_isDigit _ _ _ h4
    rcases List.mem_append.mp h4 with h5 | h5
    · exact padNum_isDigit _ _ _ h5
    · exact padNum_isDigit _ _ _ h5

/-- C5: for every file whose modification time lies in the representable
range (nonnegative seconds since the epoch, before year 10000, where the
source's datetime conversion is defined), the timestamp is a fourteen
character numeric string in the form YYYYMMDDHHMMSS, and the worked example
of the specification holds: modification time 2024-01-02T03:04:05 UTC is
rendered as the string of digits 20240102030405. -/
theorem claim_C5_timestamp (t : Nat) (h : t < 253402300800) :
    (get_utc_timestamp t).length = 14 ∧
    (∀ c ∈ get_utc_timestamp t, c.isDigit = true) ∧
    get_utc_timestamp 1704164645 = "20240102030405".toList :=
  ⟨(get_utc_timestamp_format t h).1, (get_utc_timestamp_format t h).2, by decide⟩

/-- Witness for C5 at the concrete modification time of the worked
example. -/
theorem claim_C5_timestamp_witness :
    (get_utc_timestamp 1704164645).length = 14 ∧
    (∀ c ∈ get_utc_timestamp 1704164645, c.isDigit = true) ∧
    get_utc_timestamp 1704164645 = "20240102030405".toList :=
  claim_C5_timestamp 1704164645 (by norm_num)

/-! ## Collision resolution: the probing loop finds the first free counter -/

theorem counterName_inj (ts content ext : Str) :
    Function.Injective (counterName ts content ext) := by
  intro j k hjk
  unfold counterName at hjk
  have h1 := List.append_cancel_left hjk
  simp only [List.cons.injEq, true_and] at h1
  have h2 := List.append_cancel_left h1
  simp only [List.cons.injEq, true_and] at h2
  exact natRepr_injective (List.append_cancel_right h2)

theorem fsExists_mem_keys {fs : List (Str × FileData α)} {p : Str}
    (h : fsExists fs p = true) : p ∈ fs.map Prod.fst := by
  unfold fsExists fsFind at h
  have h2 : (fs.find? (fun e => decide (e.1 = p))).isSome = true := by
    cases hfind : fs.find? (fun e => decide (e.1 = p)) with
    | none => rw [hfind] at h; cases h
    | some e => rfl
  rw [List.find?_isSome] at h2
  obtain ⟨e, he, hpe⟩ := h2
  rw [decide_eq_true_eq] at hpe
  subst hpe
  exact List.mem_map_of_mem _ he

theorem exists_free_counter (fs : List (Str × FileData α)) (ts content ext : Str) :
    ∃ k, 1 ≤ k ∧ k ≤ fs.length + 1 ∧
      fsExists fs (counterName ts content ext k) = false := by
  by_contra hcon
  push_neg at hcon
  have hall : ∀ k, 1 ≤ k → k ≤ fs.length + 1 →
      counterName ts content ext k ∈ fs.map Prod.fst := by
    intro k h1 h2
    have := hcon k h1 h2
    exact fsExists_mem_keys (by simpa using this)
  have hsub : (Finset.Icc 1 (fs.length + 1)).image (counterName ts content ext) ⊆
      (fs.map Prod.fst).toFinset := by
    intro p hp
    rw [Finset.mem_image] at hp
    obtain ⟨k, hk, hpk⟩ := hp
    rw [Finset.mem_Icc] at hk
    rw [List.mem_toFinset]
    exact hpk ▸ hall k hk.1 hk.2
  have hcard1 : ((Finset.Icc 1 (fs.length + 1)).image (counterName ts content ext)).card =
      fs.length + 1 := by
    rw [Finset.card_image_of_injective _ (counterName_inj ts content ext), Nat.card_Icc]
    omega
  have hcard2 := Finset.card_le_card hsub
  rw [hcard1] at hcard2
  have hcard3 := List.toFinset_card_le (fs.map Prod.fst)
  rw [List.length_map] at hcard3
  omega

theorem probeLoop_of_free {fs : List (Str × FileData α)} {ts content ext cur : Str}
    {counter : Nat} (h : fsExists fs cur = false) :
    ∀ fuel, probeLoop fs ts content ext counter cur fuel = cur := by
  intro fuel
  cases fuel with
  | zero => rfl
  | succ f =>
    unfold probeLoop
    rw [h]
    simp

theorem probeLoop_spec (fs : List (Str × FileData α)) (ts content ext : Str) :
    ∀ (fuel counter : Nat) (cur : Str), 1 ≤ counter →
      (fsExists fs cur = true →
        ∃ j, counter ≤ j ∧ j < counter + fuel ∧
          fsExists fs (counterName ts content ext j) = false) →
      (fsExists fs cur = false ∧ probeLoop fs ts content ext counter cur fuel = cur) ∨
      (∃ k, counter ≤ k ∧ fsExists fs (counterName ts content ext k) = false ∧
        (∀ j, counter ≤ j → j < k → fsExists fs (counterName ts content ext j) = true) ∧
        probeLoop fs ts content ext counter cur fuel = counterName ts content ext k) := by
  intro fuel
  induction fuel with
  | zero =>
    intro counter cur h1 hterm
    by_cases hex : fsExists fs cur = true
    · obtain ⟨j, hj1, hj2, _⟩ := hterm hex
      omega
    · exact Or.inl ⟨by simpa using hex, rfl⟩
  | succ f ih =>
    intro counter cur h1 hterm
    by_cases hex0 : fsExists fs cur = true
    case neg =>
      have hex : fsExists fs cur = false := by simpa using hex0
      exact Or.inl ⟨hex, probeLoop_of_free hex _⟩
    case pos =>
      have hex : fsExists fs cur = true := hex0
      have hstep : probeLoop fs ts content ext counter cur (f + 1) =
          probeLoop fs ts content ext (counter + 1) (counterName ts content ext counter) f := by
        conv_lhs => rw [probeLoop]
        rw [hex]
        simp
      by_cases hex2 : fsExists fs (counterName ts content ext counter) = true
      case neg =>
        have hex2f : fsExists fs (counterName ts content ext counter) = false := by
          simpa using hex2
        refine Or.inr ⟨counter, le_refl _, hex2f, by omega, ?_⟩
        rw [hstep]
        exact probeLoop_of_free hex2f _
      case pos =>
        have hterm2 : fsExists fs (counterName ts content ext counter) = true →
            ∃ j, counter + 1 ≤ j ∧ j < counter + 1 + f ∧
              fsExists fs (counterName ts content ext j) = false := by
          intro _
          obtain ⟨j, hj1, hj2, hj3⟩ := hterm hex
          have hjne : j ≠ counter := by
            intro hcon
            rw [hcon] at hj3
            rw [hj3] at hex2
            cases hex2
          exact ⟨j, by omega, by omega, hj3⟩
        rcases ih (counter + 1) (counterName ts content ext counter) (by omega) hterm2 with
          ⟨hfree, _⟩ | ⟨k, hk1, hkfree, hkall, hres⟩
        · rw [hfree] at hex2; cases hex2
        · refine Or.inr ⟨k, by omega, hkfree, ?_, by rw [hstep]; exact hres⟩
          intro j hj1 hj2
          rcases Nat.eq_or_lt_of_le hj1 with hj3 | hj3
          · rw [← hj3]; exact hex2
          · exact hkall j (by omega) hj2

/-- C2: when an entry already exists at the candidate path and the candidate
is not the source path itself (in which case the check is skipped), the
resolved name appends the first counter, probed in strictly increasing order
starting from one, whose path does not exist; together with the worked
example: when only the candidate 20240102030405_cat.jpg exists the resolved
name is 20240102030405_cat_1.jpg, and when that also exists it is
20240102030405_cat_2.jpg. -/
theorem claim_C2_collision_resolution :
    (∀ (α : Type) (fs : List (Str × FileData α)) (srcName ts content ext : Str),
      fsExists fs (candidateName ts content ext) = true →
      candidateName ts content ext ≠ srcName →
      ∃ k, 1 ≤ k ∧
        fsExists fs (counterName ts content ext k) = false ∧
        (∀ j, 1 ≤ j → j < k → fsExists fs (counterName ts content ext j) = true) ∧
        resolveCollision fs srcName ts content ext = counterName ts content ext k) ∧
    resolveCollision
        [("20240102030405_cat.jpg".toList, (⟨0, 0⟩ : FileData Nat))]
        "other.jpg".toList "20240102030405".toList "cat".toList ".jpg".toList =
      "20240102030405_cat_1.jpg".toList ∧
    resolveCollision
        [("20240102030405_cat.jpg".toList, (⟨0, 0⟩ : FileData Nat)),
         ("20240102030405_cat_1.jpg".toList, (⟨1, 0⟩ : FileData Nat))]
        "other.jpg".toList "20240102030405".toList "cat".toList ".jpg".toList =
      "20240102030405_cat_2.jpg".toList := by
  refine ⟨?_, by decide, by decide⟩
  intro α fs srcName ts content ext hex hne
  unfold resolveCollision
  rw [if_pos ⟨hex, hne⟩]
  obtain ⟨k0, hk01, hk0n, hk0free⟩ := exists_free_counter fs ts content ext
  rcases probeLoop_spec fs ts content ext (fs.length + 2) 1 (candidateName ts content ext)
      (le_refl 1) (fun _ => ⟨k0, hk01, by omega, hk0free⟩) with
    ⟨hfree, _⟩ | ⟨k, hk1, hkfree, hkall, hres⟩
  · rw [hex] at hfree; cases hfree
  · exact ⟨k, hk1, hkfree, hkall, hres⟩

/-- Witness for C2: in a directory holding exactly the candidate name, the
hypotheses hold and the probing yields a concrete first free counter. -/
theorem claim_C2_collision_resolution_witness :
    ∃ k, 1 ≤ k ∧
      fsExists [("20240102030405_cat.jpg".toList, (⟨0, 0⟩ : FileData Nat))]
        (counterName "20240102030405".toList "cat".toList ".jpg".toList k) = false ∧
      (∀ j, 1 ≤ j → j < k →
        fsExists [("20240102030405_cat.jpg".toList, (⟨0, 0⟩ : FileData Nat))]
          (counterName "20240102030405".toList "cat".toList ".jpg".toList j) = true) ∧
      resolveCollision [("20240102030405_cat.jpg".toList, (⟨0, 0⟩ : FileData Nat))]
          "other.jpg".toList "20240102030405".toList "cat".toList ".jpg".toList =
        counterName "20240102030405".toList "cat".toList ".jpg".toList k :=
  claim_C2_collision_resolution.1 Nat
    [("20240102030405_cat.jpg".toList, (⟨0, 0⟩ : FileData Nat))]
    "other.jpg".toList "20240102030405".toList "cat".toList ".jpg".toList
    (by decide) (by decide)

/-! ## Filesystem lemmas -/

theorem fsFind_fsRemove_self (fs : List (Str × FileData α)) (p : Str) :
    fsFind (fsRemove fs p) p = none := by
  unfold fsFind fsRemove
  rw [show (List.find? (fun e => decide (e.1 = p))
      (fs.filter (fun e => decide (e.1 ≠ p)))) = none from List.find?_eq_none.mpr ?_]
  · rfl
  intro e he
  have := (List.mem_filter.mp he).2
  simp only [decide_eq_true_eq] at this ⊢
  exact this

theorem fsFind_fsRemove_other {fs : List (Str × FileData α)} {p q : Str} (h : q ≠ p) :
    fsFind (fsRemove fs p) q = fsFind fs q := by
  unfold fsFind fsRemove
  congr 1
  induction fs with
  | nil => rfl
  | cons e rest ih =>
    by_cases hep : e.1 = p
    · rw [List.filter_cons_of_neg (by simpa using hep)]
      rw [List.find?_cons_of_neg _ (by
        simp only [decide_eq_true_eq, hep]
        exact fun hq => h hq.symm)]
      exact ih
    · rw [List.filter_cons_of_pos (by simpa using hep)]
      by_cases heq : e.1 = q
      · rw [List.find?_cons_of_pos _ (by simpa using heq),
          List.find?_cons_of_pos _ (by simpa using heq)]
      · rw [List.find?_cons_of_neg _ (by simpa using heq),
          List.find?_cons_of_neg _ (by simpa using heq)]
        exact ih

theorem fsFind_fsSet_self (fs : List (Str × FileData α)) (p : Str) (d : FileData α) :
    fsFind (fsSet fs p d) p = some d := by
  unfold fsFind fsSet
  rw [List.find?_cons_of_pos _ (by simp)]
  rfl

theorem fsFind_fsSet_other {fs : List (Str × FileData α)} {p q : Str} (d : FileData α)
    (h : q ≠ p) : fsFind (fsSet fs p d) q = fsFind fs q := by
  unfold fsFind fsSet
  rw [List.find?_cons_of_neg _ (by
    simp only [decide_eq_true_eq]
    exact fun hq => h hq.symm)]
  exact fsFind_fsRemove_other h

/-! ## Shape of resolved names -/

theorem probeLoop_shape (fs : List (Str × FileData α)) (ts content ext : Str) :
    ∀ (fuel counter : Nat) (cur : Str),
      probeLoop fs ts content ext counter cur fuel = cur ∨
      ∃ k, probeLoop fs ts content ext counter cur fuel = counterName ts content ext k := by
  intro fuel
  induction fuel with
  | zero => intro counter cur; exact Or.inl rfl
  | succ f ih =>
    intro counter cur
    by_cases hex : fsExists fs cur = true
    · have hstep : probeLoop fs ts content ext counter cur (f + 1) =
          probeLoop fs ts content ext (counter + 1) (counterName ts content ext counter) f := by
        conv_lhs => rw [probeLoop]
        rw [hex]
        simp
      rcases ih (counter + 1) (counterName ts content ext counter) with h1 | ⟨k, h1⟩
      · exact Or.inr ⟨counter, by rw [hstep, h1]⟩
      · exact Or.inr ⟨k, by rw [hstep, h1]⟩
    · have hexf : fsExists fs cur = false := by simpa using hex
      exact Or.inl (probeLoop_of_free hexf _)

theorem ext_suffix_candidateName (ts content ext : Str) :
    ext <:+ candidateName ts content ext :=
  ⟨ts ++ '_' :: content, by simp [candidateName]⟩

theorem ext_suffix_counterName (ts content ext : Str) (k : Nat) :
    ext <:+ counterName ts content ext k :=
  ⟨ts ++ '_' :: (content ++ '_' :: natRepr k), by simp [counterName]⟩

theorem ext_suffix_resolveCollision (fs : List (Str × FileData α))
    (srcName ts content ext : Str) :
    ext <:+ resolveCollision fs srcName ts content ext := by
  simp only [resolveCollision]
  split_ifs with h
  · rcases probeLoop_shape fs ts content ext (fs.length + 2) 1 (candidateName ts content ext)
      with h1 | ⟨k, h1⟩
    · rw [h1]; exact ext_suffix_candidateName ts content ext
    · rw [h1]; exact ext_suffix_counterName ts content ext k
  · exact ext_suffix_candidateName ts content ext

/-! ## Claim C8: failed analysis aborts with no side effects -/

/-- C8: when the external collaborator call fails, the whole operation exits
with code one, the directory is unchanged (original file untouched, no new
entry created), and no final name is produced. -/
theorem claim_C8_analysis_failure (α : Type) (fs : List (Str × FileData α))
    (src model e : Str) (chatFn : ChatRequest → Except Str Str) (ip : Bool)
    (hchat : chatFn ⟨model, analyzePrompt, src⟩ = Except.error e) :
    (runRename fs src chatFn model ip).exitCode = 1 ∧
    (runRename fs src chatFn model ip).fs = fs ∧
    (runRename fs src chatFn model ip).newName = none := by
  have hana : analyze_image chatFn src model =
      Except.error ("Failed to analyze image with Ollama: ".toList ++ e) := by
    unfold analyze_image
    rw [hchat]
  cases hfind : fsFind fs src with
  | none => simp [runRename, hfind]
  | some fd => simp [runRename, hfind, hana]

/-- Witness for C8 at a concrete directory and failing collaborator. -/
theorem claim_C8_analysis_failure_witness :
    (runRename [("a.jpg".toList, (⟨5, 0⟩ : FileData Nat))] "a.jpg".toList
      (fun _ => Except.error "boom".toList) "m".toList true).exitCode = 1 ∧
    (runRename [("a.jpg".toList, (⟨5, 0⟩ : FileData Nat))] "a.jpg".toList
      (fun _ => Except.error "boom".toList) "m".toList true).fs =
      [("a.jpg".toList, (⟨5, 0⟩ : FileData Nat))] ∧
    (runRename [("a.jpg".toList, (⟨5, 0⟩ : FileData Nat))] "a.jpg".toList
      (fun _ => Except.error "boom".toList) "m".toList true).newName = none :=
  claim_C8_analysis_failure Nat [("a.jpg".toList, (⟨5, 0⟩ : FileData Nat))]
    "a.jpg".toList "m".toList "boom".toList (fun _ => Except.error "boom".toList) true rfl

/-! ## Claim C3: in-place rename postcondition -/

/-- Counterexample to C3 as stated: when the file is already named exactly
like the composed candidate, the in-place run succeeds with exit code zero
(renaming the path to itself), yet the original source path still exists
afterwards, contradicting the claim that after every successful in-place run
the original path no longer exists. -/
theorem claim_C3_counterexample :
    (runRename [("20240102030405_cat.jpg".toList, (⟨0, 1704164645⟩ : FileData Nat))]
      "20240102030405_cat.jpg".toList (fun _ => Except.ok "cat".toList)
      "gemma3:4b".toList true).exitCode = 0 ∧
    fsExists (runRename [("20240102030405_cat.jpg".toList, (⟨0, 1704164645⟩ : FileData Nat))]
      "20240102030405_cat.jpg".toList (fun _ => Except.ok "cat".toList)
      "gemma3:4b".toList true).fs "20240102030405_cat.jpg".toList = true := by
  constructor
  · decide
  · decide

/-- C3 as amended: after a successful in-place run the resolved path holds
exactly the data the source held (identical content, via one atomic rename),
and whenever the resolved path differs from the source path the original
path no longer exists; when they coincide the file simply keeps its name. -/
theorem claim_C3_amended_inplace (α : Type) (fs : List (Str × FileData α))
    (src model : Str) (chatFn : ChatRequest → Except Str Str)
    (h : (runRename fs src chatFn model true).exitCode = 0) :
    ∃ r, (runRename fs src chatFn model true).newName = some r ∧
      fsFind (runRename fs src chatFn model true).fs r = fsFind fs src ∧
      (r ≠ src → fsFind (runRename fs src chatFn model true).fs src = none) := by
  cases hfind : fsFind fs src with
  | none => simp [runRename, hfind] at h
  | some fd =>
    cases hana : analyze_image chatFn src model with
    | error e => simp [runRename, hfind, hana] at h
    | ok content =>
      cases hren : fsRename fs src
          (resolveCollision fs src (get_utc_timestamp fd.mtime) content (extUsed src)) with
      | none =>
        unfold fsRename at hren
        rw [hfind] at hren
        cases hren
      | some fs2 =>
        have hfs2 : fs2 = fsSet (fsRemove fs src)
            (resolveCollision fs src (get_utc_timestamp fd.mtime) content (extUsed src)) fd := by
          unfold fsRename at hren
          rw [hfind] at hren
          exact (Option.some.injEq _ _ ▸ hren).symm
        have hout : runRename fs src chatFn model true =
            ⟨fs2, 0, some (resolveCollision fs src (get_utc_timestamp fd.mtime) content
              (extUsed src)), (pathSuffix src).isEmpty⟩ := by
          simp [runRename, hfind, hana, hren]
        refine ⟨resolveCollision fs src (get_utc_timestamp fd.mtime) content (extUsed src),
          ?_, ?_, ?_⟩
        · rw [hout]
        · rw [hout]
          show fsFind fs2 _ = some fd
          rw [hfs2]
          exact fsFind_fsSet_self _ _ _
        · intro hne
          rw [hout]
          show fsFind fs2 src = none
          rw [hfs2]
          rw [fsFind_fsSet_other fd (fun hc => hne hc.symm)]
          exact fsFind_fsRemove_self fs src

/-- Witness for the amended C3 at a concrete successful in-place run whose
resolved name differs from the source name. -/
theorem claim_C3_amended_inplace_witness :
    ∃ r, (runRename [("a.jpg".toList, (⟨7, 1704164645⟩ : FileData Nat))] "a.jpg".toList
        (fun _ => Except.ok "cat".toList) "m".toList true).newName = some r ∧
      fsFind (runRename [("a.jpg".toList, (⟨7, 1704164645⟩ : FileData Nat))] "a.jpg".toList
        (fun _ => Except.ok "cat".toList) "m".toList true).fs r =
        fsFind [("a.jpg".toList, (⟨7, 1704164645⟩ : FileData Nat))] "a.jpg".toList ∧
      (r ≠ "a.jpg".toList →
        fsFind (runRename [("a.jpg".toList, (⟨7, 1704164645⟩ : FileData Nat))] "a.jpg".toList
          (fun _ => Except.ok "cat".toList) "m".toList true).fs "a.jpg".toList = none) :=
  claim_C3_amended_inplace Nat [("a.jpg".toList, (⟨7, 1704164645⟩ : FileData Nat))]
    "a.jpg".toList "m".toList (fun _ => Except.ok "cat".toList) (by decide)

/-! ## Claim C7: copy mode leaves the source unchanged -/

/-- C7: in copy mode, every successful run leaves the source entry unchanged
(content and metadata), and the resolved target path, which differs from the
source path, afterwards holds exactly the source's data: identical content
and preserved metadata such as the modification time. -/
theorem claim_C7_copy_mode (α : Type) (fs : List (Str × FileData α))
    (src model : Str) (chatFn : ChatRequest → Except Str Str)
    (h : (runRename fs src chatFn model false).exitCode = 0) :
    fsFind (runRename fs src chatFn model false).fs src = fsFind fs src ∧
    ∃ r, (runRename fs src chatFn model false).newName = some r ∧ r ≠ src ∧
      fsFind (runRename fs src chatFn model false).fs r = fsFind fs src := by
  cases hfind : fsFind fs src with
  | none => simp [runRename, hfind] at h
  | some fd =>
    cases hana : analyze_image chatFn src model with
    | error e => simp [runRename, hfind, hana] at h
    | ok content =>
      cases hcopy : fsCopy2 fs src
          (resolveCollision fs src (get_utc_timestamp fd.mtime) content (extUsed src)) with
      | none => simp [runRename, hfind, hana, hcopy] at h
      | some fs2 =>
        have hne : src ≠ resolveCollision fs src (get_utc_timestamp fd.mtime) content
            (extUsed src) := by
          intro hc
          unfold fsCopy2 at hcopy
          rw [if_pos hc] at hcopy
          cases hcopy
        have hfs2 : fs2 = fsSet fs
            (resolveCollision fs src (get_utc_timestamp fd.mtime) content (extUsed src)) fd := by
          unfold fsCopy2 at hcopy
          rw [if_neg hne, hfind] at hcopy
          exact (Option.some.injEq _ _ ▸ hcopy).symm
        have hout : runRename fs src chatFn model false =
            ⟨fs2, 0, some (resolveCollision fs src (get_utc_timestamp fd.mtime) content
              (extUsed src)), (pathSuffix src).isEmpty⟩ := by
          simp [runRename, hfind, hana, hcopy]
        constructor
        · rw [hout]
          show fsFind fs2 src = some fd
          rw [hfs2, fsFind_fsSet_other fd hne]
          exact hfind
        · refine ⟨resolveCollision fs src (get_utc_timestamp fd.mtime) content (extUsed src),
            ?_, fun hc => hne hc.symm, ?_⟩
          · rw [hout]
          · rw [hout]
            show fsFind fs2 _ = some fd
            rw [hfs2]
            exact fsFind_fsSet_self _ _ _

/-- Witness for C7 at a concrete successful copy-mode run. -/
theorem claim_C7_copy_mode_witness :
    fsFind (runRename [("a.jpg".toList, (⟨7, 1704164645⟩ : FileData Nat))] "a.jpg".toList
        (fun _ => Except.ok "cat".toList) "m".toList false).fs "a.jpg".toList =
      fsFind [("a.jpg".toList, (⟨7, 1704164645⟩ : FileData Nat))] "a.jpg".toList ∧
    ∃ r, (runRename [("a.jpg".toList, (⟨7, 1704164645⟩ : FileData Nat))] "a.jpg".toList
        (fun _ => Except.ok "cat".toList) "m".toList false).newName = some r ∧
      r ≠ "a.jpg".toList ∧
      fsFind (runRename [("a.jpg".toList, (⟨7, 1704164645⟩ : FileData Nat))] "a.jpg".toList
        (fun _ => Except.ok "cat".toList) "m".toList false).fs r =
        fsFind [("a.jpg".toList, (⟨7, 1704164645⟩ : FileData Nat))] "a.jpg".toList :=
  claim_C7_copy_mode Nat [("a.jpg".toList, (⟨7, 1704164645⟩ : FileData Nat))]
    "a.jpg".toList "m".toList (fun _ => Except.ok "cat".toList) (by decide)

/-! ## Claim C10: copying a file onto itself fails -/

/-- C10: in copy mode, when the composed candidate name equals the source
name (so the collision check is skipped and the resolved target equals the
source path), the copy fails as a copy of a file onto itself and the run
exits with code one, leaving the directory unchanged. -/
theorem claim_C10_copy_onto_self (α : Type) (fs : List (Str × FileData α))
    (src model : Str) (chatFn : ChatRequest → Except Str Str) (fd : FileData α)
    (content : Str)
    (hfd : fsFind fs src = some fd)
    (hana : analyze_image chatFn src model = Except.ok content)
    (hcand : candidateName (get_utc_timestamp fd.mtime) content (extUsed src) = src) :
    (runRename fs src chatFn model false).exitCode = 1 ∧
    (runRename fs src chatFn model false).fs = fs := by
  have hres : resolveCollision fs src (get_utc_timestamp fd.mtime) content (extUsed src) =
      src := by
    simp only [resolveCollision]
    rw [if_neg (fun hc => hc.2 hcand)]
    exact hcand
  have hcopy : fsCopy2 fs src
      (resolveCollision fs src (get_utc_timestamp fd.mtime) content (extUsed src)) = none := by
    rw [hres]
    unfold fsCopy2
    rw [if_pos rfl]
  simp [runRename, hfd, hana, hcopy]

/-- Witness for C10: a file already carrying the composed name, in copy
mode. -/
theorem claim_C10_copy_onto_self_witness :
    (runRename [("20240102030405_cat.jpg".toList, (⟨0, 1704164645⟩ : FileData Nat))]
      "20240102030405_cat.jpg".toList (fun _ => Except.ok "cat".toList)
      "m".toList false).exitCode = 1 ∧
    (runRename [("20240102030405_cat.jpg".toList, (⟨0, 1704164645⟩ : FileData Nat))]
      "20240102030405_cat.jpg".toList (fun _ => Except.ok "cat".toList)
      "m".toList false).fs =
      [("20240102030405_cat.jpg".toList, (⟨0, 1704164645⟩ : FileData Nat))] :=
  claim_C10_copy_onto_self Nat
    [("20240102030405_cat.jpg".toList, (⟨0, 1704164645⟩ : FileData Nat))]
    "20240102030405_cat.jpg".toList "m".toList (fun _ => Except.ok "cat".toList)
    ⟨0, 1704164645⟩ "cat".toList (by decide) rfl (by decide)

/-! ## Claim C9: extension handling -/

/-- C9: when the validated input name has no extension the no-extension
warning is emitted and the literal ".jpg" is used as the extension of the
composed name, and otherwise no warning is emitted and the source name's own
suffix is used; in both cases every composed final name ends with that
substituted extension, and the substitution itself does not touch the
directory (the file is only modified by the later execute step). -/
theorem claim_C9_extension (α : Type) (fs : List (Str × FileData α))
    (src model : Str) (chatFn : ChatRequest → Except Str Str) (ip : Bool)
    (hsome : (fsFind fs src).isSome = true) :
    (runRename fs src chatFn model ip).warnedNoExt = (pathSuffix src).isEmpty ∧
    (∀ r, (runRename fs src chatFn model ip).newName = some r → extUsed src <:+ r) := by
  cases hfind : fsFind fs src with
  | none => rw [hfind] at hsome; cases hsome
  | some fd =>
    cases hana : analyze_image chatFn src model with
    | error e =>
      constructor
      · simp [runRename, hfind, hana]
      · intro r hr
        simp [runRename, hfind, hana] at hr
    | ok content =>
      cases ip with
      | true =>
        cases hren : fsRename fs src
            (resolveCollision fs src (get_utc_timestamp fd.mtime) content (extUsed src)) with
        | none =>
          unfold fsRename at hren
          rw [hfind] at hren
          cases hren
        | some fs2 =>
          constructor
          · simp [runRename, hfind, hana, hren]
          · intro r hr
            simp only [runRename, hfind, hana, hren] at hr
            have : r = resolveCollision fs src (get_utc_timestamp fd.mtime) content
                (extUsed src) := by
              simpa using hr.symm
            rw [this]
            exact ext_suffix_resolveCollision fs src _ content (extUsed src)
      | false =>
        cases hcopy : fsCopy2 fs src
            (resolveCollision fs src (get_utc_timestamp fd.mtime) content (extUsed src)) with
        | none =>
          constructor
          · simp [runRename, hfind, hana, hcopy]
          · intro r hr
            simp only [runRename, hfind, hana, hcopy] at hr
            have : r = resolveCollision fs src (get_utc_timestamp fd.mtime) content
                (extUsed src) := by
              simpa using hr.symm
            rw [this]
            exact ext_suffix_resolveCollision fs src _ content (extUsed src)
        | some fs2 =>
          constructor
          · simp [runRename, hfind, hana, hcopy]
          · intro r hr
            simp only [runRename, hfind, hana, hcopy] at hr
            have : r = resolveCollision fs src (get_utc_timestamp fd.mtime) content
                (extUsed src) := by
              simpa using hr.symm
            rw [this]
            exact ext_suffix_resolveCollision fs src _ content (extUsed src)

/-- Witness for C9 at a concrete extensionless file: the warning fires and
the composed name ends in the substituted ".jpg". -/
theorem claim_C9_extension_witness :
    (runRename [("photo".toList, (⟨7, 1704164645⟩ : FileData Nat))] "photo".toList
      (fun _ => Except.ok "cat".toList) "m".toList true).warnedNoExt =
      (pathSuffix "photo".toList).isEmpty ∧
    (∀ r, (runRename [("photo".toList, (⟨7, 1704164645⟩ : FileData Nat))] "photo".toList
      (fun _ => Except.ok "cat".toList) "m".toList true).newName = some r →
      extUsed "photo".toList <:+ r) :=
  claim_C9_extension Nat [("photo".toList, (⟨7, 1704164645⟩ : FileData Nat))]
    "photo".toList "m".toList (fun _ => Except.ok "cat".toList) true (by decide)

/-! ## Claim C4: what the analyze operation returns -/

/-- Counterexample to C4 as stated: the analyze operation does not return
the collaborator's raw textual response unmodified; with a collaborator
answering the two-word description with capital letters, analyze returns the
sanitized lowercase token instead of the raw text, because the source strips
and sanitizes inside analyze_image before returning. -/
theorem claim_C4_counterexample :
    analyze_image (fun _ => Except.ok "Cat Sleeping".toList) "img.jpg".toList "m".toList ≠
      Except.ok "Cat Sleeping".toList ∧
    analyze_image (fun _ => Except.ok "Cat Sleeping".toList) "img.jpg".toList "m".toList =
      Except.ok "cat_sleeping".toList := by
  constructor
  · intro hcon
    have : ("cat_sleeping".toList : Str) = "Cat Sleeping".toList := by
      have h1 : analyze_image (fun _ => Except.ok "Cat Sleeping".toList)
          "img.jpg".toList "m".toList = Except.ok "cat_sleeping".toList := rfl
      have h2 := h1.symm.trans hcon
      exact Except.ok.inj h2
    cases this
  · rfl

/-- C4 as amended: analyze sends the image together with the fixed
instruction prompt to the named vision model through the collaborator, and
returns the collaborator's response stripped of surrounding whitespace and
already sanitized into a valid Content Token (the sanitization happens
inside the analyze step, not in a separate later step); a collaborator
failure is returned as a wrapped analysis error. -/
theorem claim_C4_amended_analyze (chatFn : ChatRequest → Except Str Str)
    (img model : Str) :
    (∀ resp, chatFn ⟨model, analyzePrompt, img⟩ = Except.ok resp →
      analyze_image chatFn img model =
        Except.ok (sanitize_content (pyStripWs resp)) ∧
      IsValidToken (sanitize_content (pyStripWs resp))) ∧
    (∀ e, chatFn ⟨model, analyzePrompt, img⟩ = Except.error e →
      analyze_image chatFn img model =
        Except.error ("Failed to analyze image with Ollama: ".toList ++ e)) := by
  constructor
  · intro resp hresp
    constructor
    · unfold analyze_image
      rw [hresp]
    · exact sanitize_valid (pyStripWs resp)
  · intro e he
    unfold analyze_image
    rw [he]

/-- Witness for the amended C4 at a concrete collaborator response carrying
whitespace and capital letters. -/
theorem claim_C4_amended_analyze_witness :
    analyze_image (fun _ => Except.ok " Cat Sleeping ".toList) "img.jpg".toList
      "m".toList = Except.ok (sanitize_content (pyStripWs " Cat Sleeping ".toList)) ∧
    IsValidToken (sanitize_content (pyStripWs " Cat Sleeping ".toList)) :=
  (claim_C4_amended_analyze (fun _ => Except.ok " Cat Sleeping ".toList)
    "img.jpg".toList "m".toList).1 " Cat Sleeping ".toList rfl
